import Mathlib

/-!
Verification of the DocSage retrieval-augmented question-answering pipeline.

The Python sources are shallowly embedded: Python strings become `PyStr`
(lists of characters, so that length and slicing reasoning stays
elementary), the SQLAlchemy-backed store becomes an explicit `DBState`
record manipulated by pure functions mirroring the CRUD helpers in
`src/database/models.py`, and the external collaborators (Gemini model,
Google embeddings, FAISS, Serper) are modelled by explicit oracles or by
their documented deterministic contracts.
-/

/-- Python strings, embedded as lists of characters (`len` = `List.length`). -/
abbrev PyStr := List Char

/-- Python's substring test `needle in hay`: some suffix of `hay` starts
with `needle` (the empty needle is contained in everything). -/
def strContains : PyStr → PyStr → Bool
  | [], needle => needle.isEmpty
  | c :: t, needle => needle.isPrefixOf (c :: t) || strContains t needle

/-- `str.lower` restricted to what the code needs (ASCII keywords). -/
def pyLower (s : PyStr) : PyStr := s.map Char.toLower

/-- `sep.join xs` with Python's semantics. -/
def pyJoin (sep : PyStr) : List PyStr → PyStr
  | [] => []
  | [x] => x
  | x :: y :: r => x ++ sep ++ pyJoin sep (y :: r)

/-- The whitespace characters stripped by Python's `str.strip()`. -/
def pyIsSpace (c : Char) : Bool :=
  c == ' ' || c == '\t' || c == '\n' || c == '\r' || c == '\x0b' || c == '\x0c'

/-- Python's `str.strip()`. -/
def pyStrip (s : PyStr) : PyStr :=
  ((s.dropWhile pyIsSpace).reverse.dropWhile pyIsSpace).reverse

/-- Decimal rendering of a count, as Python's `str`/f-string does for a
non-negative integer. -/
def pyStrOfNat (n : Nat) : PyStr := (toString n).toList

/-! ## Web search tool (`src/services/web_search.py`) -/

/-- One organic result from the Serper response JSON. -/
structure SerperResult where
  title : PyStr
  link : PyStr
  snippet : PyStr
deriving DecidableEq, Repr

/-- Outcome of the guarded body of `serper_search`: either some step inside
the `try` block raised (transport error, non-2xx status via
`raise_for_status`, JSON decoding, ...) with a printed message, or the
request succeeded with a list of organic results. -/
inductive SerperOutcome where
  | failure (msg : PyStr)
  | success (organic : List SerperResult)
deriving DecidableEq, Repr

/-- The line `f"{title}: {link}\n{snippet}"` built for one organic result. -/
def serperLine (r : SerperResult) : PyStr :=
  r.title ++ ": ".toList ++ r.link ++ ['\n'] ++ r.snippet

/-- The `try` body of `serper_search`: raises (`Except.error`) exactly when
the outcome is a failure, otherwise formats the top three organic results. -/
def serperBody (outcome : SerperOutcome) : Except PyStr PyStr :=
  match outcome with
  | .failure e => .error e
  | .success organic =>
    if organic.isEmpty then .ok ("No results found.".toList)
    else .ok (pyJoin ['\n'] ((organic.take 3).map serperLine))

/-- `serper_search` itself: the `except` clause converts any raised
exception into the returned string `"Serper Search error: {e}"`, so the
call as a whole never raises (its `Except` layer is always `.ok`). -/
def serperSearchRun (outcome : SerperOutcome) : Except PyStr PyStr :=
  match serperBody outcome with
  | .ok s => .ok s
  | .error e => .ok ("Serper Search error: ".toList ++ e)

/-! ## Data model (`src/database/models.py`)

Rows of the four tables plus the `chat_documents` association table.
Primary keys are opaque strings (uuid4 in the source). -/

/-- A row of `documents`. -/
structure Doc where
  id : String
  filename : PyStr
  originalName : PyStr
  fileSize : Nat
deriving DecidableEq, Repr

/-- A row of `chunks`. -/
structure DBChunk where
  id : String
  documentId : String
  content : PyStr
  chunkIndex : Nat
deriving DecidableEq, Repr

/-- A row of `chat_sessions`. -/
structure ChatRec where
  id : String
  name : PyStr
deriving DecidableEq, Repr

/-- A row of `chat_messages` (timestamps are kept implicit: list order is
insertion order, which is what `order_by(timestamp)` reconstructs). -/
structure MsgRec where
  chatId : String
  question : PyStr
  answer : PyStr
deriving DecidableEq, Repr

/-- The whole store. `assoc` holds `(chat_id, document_id)` pairs of the
`chat_documents` association table. -/
structure DBState where
  documents : List Doc
  chunks : List DBChunk
  chats : List ChatRec
  assoc : List (String × String)
  messages : List MsgRec
deriving DecidableEq, Repr

/-- `get_chat_session`: first chat row with the given id. -/
def getChatSession (st : DBState) (cid : String) : Option ChatRec :=
  st.chats.find? (fun c => c.id == cid)

/-- `get_document`: first document row with the given id. -/
def getDocument (st : DBState) (did : String) : Option Doc :=
  st.documents.find? (fun d => d.id == did)

/-- The ORM collection `chat.documents`: the documents reached through the
association rows of this chat, in association order. -/
def chatDocuments (st : DBState) (cid : String) : List Doc :=
  (st.assoc.filter (fun p => p.1 == cid)).filterMap
    (fun p => st.documents.find? (fun d => d.id == p.2))

/-- Generic insertion sort on a boolean `le`, used to model SQL `ORDER BY`
and FAISS distance ordering. Stable: an element is inserted before the
later elements it ties with. -/
def insertLe (le : α → α → Bool) (x : α) : List α → List α
  | [] => [x]
  | y :: ys => if le x y then x :: y :: ys else y :: insertLe le x ys

/-- Sorting with `insertLe`. -/
def sortLe (le : α → α → Bool) : List α → List α
  | [] => []
  | x :: xs => insertLe le x (sortLe le xs)

/-- The `ORDER BY (documentId, chunkIndex)` key of `get_chunks_for_documents`. -/
def chunkOrd (a b : DBChunk) : Bool :=
  decide (a.documentId < b.documentId) ||
    (a.documentId == b.documentId && decide (a.chunkIndex ≤ b.chunkIndex))

/-- `get_chunks_for_documents`: chunks whose `documentId` is in the given
id list, ordered by `(documentId, chunkIndex)`. -/
def getChunksForDocuments (st : DBState) (ids : List String) : List DBChunk :=
  sortLe chunkOrd (st.chunks.filter (fun c => ids.contains c.documentId))

/-- `models.add_document_to_chat`: appends an association row when the chat
and the document both exist and the pair is not already associated. -/
def addDocumentToChatRow (st : DBState) (cid did : String) : DBState :=
  match getChatSession st cid, getDocument st did with
  | some _, some _ =>
    if st.assoc.contains (cid, did) then st
    else { st with assoc := st.assoc ++ [(cid, did)] }
  | _, _ => st

/-- `models.remove_document_from_chat`: drops the association row when the
chat and the document both exist and the pair is associated; the
`documents` and `chunks` tables are untouched. -/
def removeDocumentFromChat (st : DBState) (cid did : String) : DBState :=
  match getChatSession st cid, getDocument st did with
  | some _, some _ =>
    if st.assoc.contains (cid, did) then
      { st with assoc := st.assoc.filter (fun p => !(p.1 == cid && p.2 == did)) }
    else st
  | _, _ => st

/-- `models.delete_document`: when the document exists, deletes its row,
its chunks (`cascade="all, delete-orphan"`), and its association rows
(SQLAlchemy removes secondary-table rows of a deleted parent). -/
def deleteDocument (st : DBState) (did : String) : DBState :=
  match getDocument st did with
  | none => st
  | some _ =>
    { st with
      documents := st.documents.filter (fun d => !(d.id == did)),
      chunks := st.chunks.filter (fun c => !(c.documentId == did)),
      assoc := st.assoc.filter (fun p => !(p.2 == did)) }

/-- `models.create_chat_message`: appends one immutable question/answer row. -/
def createChatMessage (st : DBState) (cid : String) (q a : PyStr) : DBState :=
  { st with messages := st.messages ++ [⟨cid, q, a⟩] }

/-- `models.rename_chat_session`: updates the name of the chat when it exists. -/
def renameChatSession (st : DBState) (cid : String) (newName : PyStr) : DBState :=
  match getChatSession st cid with
  | none => st
  | some _ =>
    { st with
      chats := st.chats.map (fun c => if c.id == cid then { c with name := newName } else c) }

/-! ## DocumentService helpers (`src/services/document_service.py`) -/

/-- `filename.rsplit('.', 1)[0]`: everything before the last dot, or the
whole string when there is no dot. -/
def rsplitDotHead (s : PyStr) : PyStr :=
  if s.contains '.' then ((s.reverse.dropWhile (fun c => c ≠ '.')).drop 1).reverse
  else s

/-- One step of Python's `str.title()`: a letter is uppercased when the
previous character was not a letter, lowercased otherwise. -/
def pyTitleGo : Bool → PyStr → PyStr
  | _, [] => []
  | prevAlpha, c :: cs =>
    (if c.isAlpha then (if prevAlpha then c.toLower else c.toUpper) else c) ::
      pyTitleGo c.isAlpha cs

/-- Python's `str.title()` (ASCII behaviour, which is all the code needs). -/
def pyTitle (s : PyStr) : PyStr := pyTitleGo false s

/-- Python's `str.split()`: split on whitespace runs, dropping empty parts. -/
def pyWords (s : PyStr) : List PyStr :=
  (List.splitOnP pyIsSpace s).filter (fun w => w ≠ [])

/-- `DocumentService._generate_smart_chat_name`. -/
def generateSmartChatName (filename : PyStr) : PyStr :=
  let name := rsplitDotHead filename
  let name := name.map (fun c => if c = '_' then ' ' else if c = '-' then ' ' else c)
  let words := pyWords name
  let name := if words.length > 3 then pyJoin [' '] (words.take 3) else name
  let name := if name.length > 25 then name.take 22 ++ "...".toList else name
  pyTitle name

/-- `DocumentService.add_document_to_chat`: adds the association row, then
auto-renames the chat when it now holds exactly one document and still has
a default-style name. -/
def addDocumentToChat (st : DBState) (cid did : String) : DBState :=
  match getChatSession (addDocumentToChatRow st cid did) cid with
  | none => addDocumentToChatRow st cid did
  | some chat =>
    if (chatDocuments (addDocumentToChatRow st cid did) cid).length == 1 &&
        (strContains chat.name ("New Chat".toList) ||
          strContains chat.name ("Chat ".toList)) then
      match getDocument (addDocumentToChatRow st cid did) did with
      | none => addDocumentToChatRow st cid did
      | some doc =>
        renameChatSession (addDocumentToChatRow st cid did) cid
          (generateSmartChatName doc.originalName)
    else addDocumentToChatRow st cid did

/-! ## Vector store (`src/services/vector_store.py`)

Embedding vectors are modelled with integer coordinates (the embedding
provider is an oracle; only the exact brute-force L2 search of
`IndexFlatL2` is deterministic code). -/

/-- `Config.SIMILARITY_TOP_K`. -/
def SIMILARITY_TOP_K : Nat := 5

/-- Squared Euclidean distance, the metric of `faiss.IndexFlatL2`. -/
def l2sq (u v : List Int) : Int :=
  ((u.zip v).map (fun p => (p.1 - p.2) ^ 2)).sum

/-- Ordering of FAISS hits: by distance, ties by original vector index. -/
def pairLe (a b : Int × Int) : Bool :=
  decide (a.1 < b.1) || (a.1 == b.1 && decide (a.2 ≤ b.2))

/-- `index.search(q, k)` of an `IndexFlatL2` holding `vectors`: the indices
of the `min k n` nearest vectors in non-decreasing distance order, padded
with `-1` up to length `k` when fewer than `k` vectors are stored. -/
def faissSearchIdx (vectors : List (List Int)) (q : List Int) (k : Nat) : List Int :=
  let scored := vectors.enum.map (fun p => (l2sq p.2 q, (p.1 : Int)))
  let top := ((sortLe pairLe scored).take k).map (fun p => p.2)
  top ++ List.replicate (k - top.length) (-1)

/-- Python list indexing `l[i]`, including negative wrap-around; `none`
models the `IndexError` raised out of range. -/
def pyGet (l : List α) (i : Int) : Option α :=
  let j : Int := if i < 0 then i + l.length else i
  if 0 ≤ j ∧ j < l.length then l.get? j.toNat else none

/-- One element of the result of `VectorStore.similarity_search`:
`{"content": self.texts[idx], "index": idx}`. -/
structure SearchHit where
  content : Option PyStr
  index : Int
deriving DecidableEq, Repr

/-- `VectorStore.similarity_search` over an index built from `texts` with
the oracle embedding `embed`: runs the FAISS search, then keeps every
returned index `idx` with `idx < len(self.texts)` and looks the text up
with plain Python indexing. -/
def similaritySearch (embed : PyStr → List Int) (texts : List PyStr)
    (query : PyStr) (k : Nat) : List SearchHit :=
  let I0 := faissSearchIdx (texts.map embed) (embed query) k
  (I0.filter (fun idx => decide (idx < (texts.length : Int)))).map
    (fun idx => ⟨pyGet texts idx, idx⟩)

/-- `np.array(vectors).astype('float32').shape[1]`: the shape of an empty
vector list is `(0,)`, so indexing component 1 raises an `IndexError`. -/
def npShapeGet1 (vectors : List (List Int)) : Except PyStr Nat :=
  match vectors with
  | [] => .error ("tuple index out of range".toList)
  | v :: _ => .ok v.length

/-- An in-memory `IndexFlatL2` handle. -/
structure FlatIndex where
  dim : Nat
  dbVectors : List (List Int)
deriving DecidableEq, Repr

/-- `VectorStore.create_index`: embeds the texts, reads the vector matrix
shape, and builds the flat index; `Except.error` models a raised exception. -/
def createIndex (embed : PyStr → List Int) (texts : List PyStr) :
    Except PyStr FlatIndex :=
  let vectors := texts.map embed
  match npShapeGet1 vectors with
  | .error e => .error e
  | .ok d => .ok ⟨d, vectors⟩

/-! ## Retriever and Answer Composer (`src/services/document_service.py`) -/

/-- The handle returned by `get_multi_document_retriever`: a fresh
similarity index over the chunk texts plus the top-k setting. -/
structure Retriever where
  texts : List PyStr
  k : Nat
deriving DecidableEq, Repr

/-- `DocumentService.get_multi_document_retriever`. -/
def getMultiDocumentRetriever (st : DBState) (ids : List String) : Option Retriever :=
  if ids.isEmpty then none
  else
    let chunks := getChunksForDocuments st ids
    if chunks.isEmpty then none
    else some ⟨chunks.map (fun c => c.content), SIMILARITY_TOP_K⟩

/-- The curated keyword list of `DocumentService._is_system_question`. -/
def systemKeywords : List PyStr :=
  ["any pdf".toList, "pdf available".toList, "documents available".toList,
   "files available".toList, "what pdf".toList, "which pdf".toList,
   "pdf loaded".toList, "document loaded".toList, "file info".toList,
   "document info".toList, "system status".toList, "how many documents".toList,
   "what documents".toList, "which documents".toList]

/-- `DocumentService._is_system_question`: keyword containment against the
lowercased question. -/
def isSystemQuestion (question : PyStr) : Bool :=
  systemKeywords.any (fun kw => strContains (pyLower question) kw)

/-- The deterministic system-status answer built from `documents_info`. -/
def systemAnswer (docs : List Doc) : PyStr :=
  let names := docs.map (fun d => d.originalName)
  if docs.length == 1 then
    "Yes, there is 1 PDF document in this chat: ".toList ++ ['\''] ++
      names.headD [] ++ ['\''] ++ ".".toList
  else
    "Yes, there are ".toList ++ pyStrOfNat docs.length ++
      " PDF documents in this chat: ".toList ++ pyJoin (", ".toList) names ++ ".".toList

/-- Oracle for the nondeterministic collaborators of one `ask_question`
call: the retriever search, the direct QA chain, and the agent loop. Each
is either a raised exception (`Except.error`) or a returned value. -/
structure QAOracle where
  retrieved : Except Unit (List PyStr)
  directAnswer : Except Unit PyStr
  agentAnswer : Except Unit PyStr
deriving Repr

/-- Side effects tracked across one `ask_question` call: FAISS index
builds over the chat's chunk texts (each embeds the whole corpus),
similarity searches, direct LLM invocations, and agent-loop runs. -/
structure AskEffects where
  indexBuilds : Nat
  searches : Nat
  llmCalls : Nat
  agentRuns : Nat
deriving DecidableEq, Repr

/-- Result of one `ask_question` call. -/
structure AskResult where
  result : PyStr
  state : DBState
  effects : AskEffects
deriving DecidableEq, Repr

/-- `"No documents found in this chat. Please add some documents first."` -/
def noDocsMsg : PyStr :=
  "No documents found in this chat. Please add some documents first.".toList

/-- `"No document content found. Please ensure documents are properly processed."` -/
def noContentMsg : PyStr :=
  "No document content found. Please ensure documents are properly processed.".toList

/-- The generic apology of the outer `except` clause. -/
def apologyMsg : PyStr :=
  "Sorry, I encountered an error while processing your question. Please try again.".toList

/-- The canonical uncertainty marker checked on the direct answer. -/
def uncertainMarker : PyStr := "I don".toList ++ ['\''] ++ "t know".toList

/-- The tail of `ask_question` after the direct tier did not return: runs
the agent; on success the answer is persisted, while an agent exception
reaches the outer handler, which returns the apology without persisting. -/
def agentStep (st : DBState) (o : QAOracle) (cid : String) (question : PyStr)
    (searchesSoFar llmSoFar : Nat) : AskResult :=
  match o.agentAnswer with
  | .ok a => ⟨a, createChatMessage st cid question a, ⟨1, searchesSoFar, llmSoFar, 1⟩⟩
  | .error _ => ⟨apologyMsg, st, ⟨1, searchesSoFar, llmSoFar, 1⟩⟩

/-- `DocumentService.ask_question`: the tiered Answer Composer. -/
def askQuestion (st : DBState) (o : QAOracle) (cid : String) (question : PyStr) : AskResult :=
  match getChatSession st cid with
  | none => ⟨noDocsMsg, st, ⟨0, 0, 0, 0⟩⟩
  | some _ =>
    let docs := chatDocuments st cid
    if docs.isEmpty then ⟨noDocsMsg, st, ⟨0, 0, 0, 0⟩⟩
    else
      match getMultiDocumentRetriever st (docs.map (fun d => d.id)) with
      | none => ⟨noContentMsg, st, ⟨0, 0, 0, 0⟩⟩
      | some _ =>
        if isSystemQuestion question then
          let ans := systemAnswer docs
          ⟨ans, createChatMessage st cid question ans, ⟨1, 0, 0, 0⟩⟩
        else
          match o.retrieved with
          | .error _ => agentStep st o cid question 1 0
          | .ok rdocs =>
            if rdocs.isEmpty then agentStep st o cid question 1 0
            else
              match o.directAnswer with
              | .error _ => agentStep st o cid question 1 1
              | .ok a =>
                if !a.isEmpty && !(strContains a uncertainMarker) then
                  ⟨a, createChatMessage st cid question a, ⟨1, 1, 1, 0⟩⟩
                else agentStep st o cid question 1 1

/-! ## Chunker (`src/services/pdf_processor.py`)

`PDFProcessor.chunk_text` delegates to langchain's
`RecursiveCharacterTextSplitter(chunk_size=1000, chunk_overlap=200,
length_function=len)` with its default separators and
`keep_separator=False`; the splitter is embedded here step for step. -/

/-- `Config.CHUNK_SIZE` / the splitter's `chunk_size`. -/
def CHUNK_SIZE : Nat := 1000

/-- `Config.CHUNK_OVERLAP` / the splitter's `chunk_overlap`. -/
def CHUNK_OVERLAP : Nat := 200

/-- The splitter's default separators `["\n\n", "\n", " ", ""]`. -/
def splitterSeparators : List PyStr := [['\n', '\n'], ['\n'], [' '], []]

/-- `re.split(re.escape(sep), text)` for a non-empty `sep`: cut at every
non-overlapping occurrence, scanning left to right. -/
def reSplitAux (sep : PyStr) : PyStr → List PyStr
  | [] => [[]]
  | c :: t =>
    if sep ≠ [] ∧ sep.isPrefixOf (c :: t) = true then
      [] :: reSplitAux sep (t.drop (sep.length - 1))
    else
      match reSplitAux sep t with
      | [] => [[c]]
      | s :: rest => (c :: s) :: rest
termination_by l => l.length
decreasing_by
  · simp only [List.length_drop, List.length_cons]
    omega
  · simp only [List.length_cons]
    omega

/-- `_split_text_with_regex(text, separator, keep_separator=False)`: split
on the separator (single characters for the empty separator) and drop the
empty pieces. -/
def splitTextWithRegex (text separator : PyStr) : List PyStr :=
  (if separator ≠ [] then reSplitAux separator text
   else text.map (fun c => [c])).filter (fun s => s ≠ [])

/-- The separator-selection loop of `_split_text`: take the first
separator that is empty (no recursion possible below it) or occurs in the
text (remembering the remaining separators); the last separator is the
fallback when none matches. -/
def pickSepLoop (dflt : PyStr) (text : PyStr) : List PyStr → PyStr × List PyStr
  | [] => (dflt, [])
  | s :: rest =>
    if s = [] then ([], [])
    else if strContains text s then (s, rest)
    else pickSepLoop dflt text rest

/-- Separator selection of `_split_text`. -/
def pickSeparator (seps : List PyStr) (text : PyStr) : PyStr × List PyStr :=
  pickSepLoop (seps.getLastD []) text seps

/-- `_join_docs`: join with the separator, strip whitespace, and drop the
chunk when nothing is left. -/
def joinDocs (docs : List PyStr) (sep : PyStr) : Option PyStr :=
  let text := pyStrip (pyJoin sep docs)
  if text = [] then none else some text

/-- The pop-from-the-front `while` loop of `_merge_splits`. The running
`total` always equals the joined length of `current`, so it is zero on an
empty `current` and the loop condition is then false. -/
def popLoop (sepLen dLen : Nat) : List PyStr → Nat → List PyStr × Nat
  | [], total => ([], total)
  | c0 :: rest, total =>
    if total > CHUNK_OVERLAP ∨
        (total + dLen + (if (c0 :: rest).length > 0 then sepLen else 0) > CHUNK_SIZE ∧
          total > 0) then
      popLoop sepLen dLen rest (total - (c0.length + if rest.length > 0 then sepLen else 0))
    else (c0 :: rest, total)

/-- Accumulator of `_merge_splits`: emitted docs, the current window, and
its running joined length. -/
structure MergeSt where
  docs : List PyStr
  current : List PyStr
  total : Nat
deriving DecidableEq, Repr

/-- One iteration of the `for d in splits` loop of `_merge_splits`. -/
def mergeStep (sep : PyStr) (st : MergeSt) (d : PyStr) : MergeSt :=
  let sepLen := sep.length
  let dLen := d.length
  let st1 :=
    if st.total + dLen + (if st.current.length > 0 then sepLen else 0) > CHUNK_SIZE then
      if st.current.length > 0 then
        let docs1 :=
          match joinDocs st.current sep with
          | some doc => st.docs ++ [doc]
          | none => st.docs
        let pr := popLoop sepLen dLen st.current st.total
        ⟨docs1, pr.1, pr.2⟩
      else st
    else st
  let current1 := st1.current ++ [d]
  ⟨st1.docs, current1, st1.total + dLen + (if current1.length > 1 then sepLen else 0)⟩

/-- `_merge_splits`. -/
def mergeSplits (splits : List PyStr) (sep : PyStr) : List PyStr :=
  let st := splits.foldl (mergeStep sep) ⟨[], [], 0⟩
  match joinDocs st.current sep with
  | some doc => st.docs ++ [doc]
  | none => st.docs

/-- One iteration of the `for s in splits` loop of `_split_text`: a split
below the chunk size is collected into `good_splits`; a longer one first
flushes the collected good splits through `_merge_splits`, then is either
appended raw (no separators left) or split recursively (`recurse`). -/
def splitStep (separator : PyStr) (newSeparators : List PyStr)
    (recurse : PyStr → List PyStr)
    (acc : List PyStr × List PyStr) (s : PyStr) : List PyStr × List PyStr :=
  if s.length < CHUNK_SIZE then (acc.1, acc.2 ++ [s])
  else
    let acc1 :=
      if acc.2.length > 0 then (acc.1 ++ mergeSplits acc.2 separator, ([] : List PyStr))
      else acc
    if newSeparators = [] then (acc1.1 ++ [s], acc1.2)
    else (acc1.1 ++ recurse s, acc1.2)

/-- `_split_text(text, separators)`, with a fuel argument standing for the
length of the separator list: every recursive call passes a strict suffix
of the separators, so starting the fuel at `separators.length` never
exhausts it (the fuel-0 clause is unreachable from `splitText`). -/
def splitTextGo : Nat → List PyStr → PyStr → List PyStr
  | 0, _, text => [text]
  | fuel + 1, seps, text =>
    let pick := pickSeparator seps text
    let splits := splitTextWithRegex text pick.1
    let res := splits.foldl (splitStep pick.1 pick.2 (splitTextGo fuel pick.2)) ([], [])
    if res.2.length > 0 then res.1 ++ mergeSplits res.2 pick.1 else res.1

/-- `split_text` with the configured separators. -/
def splitText (text : PyStr) : List PyStr :=
  splitTextGo splitterSeparators.length splitterSeparators text

/-- One element of `PDFProcessor.chunk_text`'s result:
`{"content": ..., "chunk_index": i}`. -/
structure TChunk where
  content : PyStr
  chunkIndex : Nat
deriving DecidableEq, Repr

/-- `PDFProcessor.chunk_text`: split, then enumerate. -/
def chunkText (text : PyStr) : List TChunk :=
  (splitText text).enum.map (fun p => ⟨p.2, p.1⟩)

/-! ## Statement helpers and witness fixtures -/

/-- The joined length of a window of splits: the sum of the pieces plus
one separator between consecutive pieces. This is the quantity the
running `total` of `_merge_splits` tracks. -/
def sepWeight (sepLen : Nat) (ds : List PyStr) : Nat :=
  (ds.map List.length).sum + sepLen * (ds.length - 1)

/-- The direct tier produces the final answer: the retrieval returned a
non-empty document list and the QA chain returned a non-empty answer
without the uncertainty marker. -/
def directTierReturns (o : QAOracle) : Bool :=
  match o.retrieved, o.directAnswer with
  | .ok rdocs, .ok a =>
    !rdocs.isEmpty && (!a.isEmpty && !(strContains a uncertainMarker))
  | _, _ => false

/-- The guard of the auto-rename inside `add_document_to_chat`, evaluated
on the state right after the association row was added: the chat exists,
holds exactly one document, still has a default-style name, and the added
document exists. -/
def smartRenameCond (st : DBState) (cid did : String) : Bool :=
  match getChatSession (addDocumentToChatRow st cid did) cid,
      getDocument (addDocumentToChatRow st cid did) did with
  | some chat, some _ =>
    (chatDocuments (addDocumentToChatRow st cid did) cid).length == 1 &&
      (strContains chat.name ("New Chat".toList) ||
        strContains chat.name ("Chat ".toList))
  | _, _ => false

/-- Fixture: document `d1`, original name `A.pdf`. -/
def docA : Doc := ⟨"d1", "a.pdf".toList, "A.pdf".toList, 10⟩

/-- Fixture: document `d2`, original name `B.pdf`. -/
def docB : Doc := ⟨"d2", "b.pdf".toList, "B.pdf".toList, 20⟩

/-- Fixture: a chunk of `d1`. -/
def chunkA : DBChunk := ⟨"k1", "d1", "alpha text".toList, 0⟩

/-- Fixture: a chunk of `d2`. -/
def chunkB : DBChunk := ⟨"k2", "d2", "beta text".toList, 0⟩

/-- Fixture: a chat with the default name. -/
def chatOne : ChatRec := ⟨"c1", "New Chat".toList⟩

/-- Fixture: a second chat holding `d2`. -/
def chatTwo : ChatRec := ⟨"c2", "Other".toList⟩

/-- Fixture: a store with two documents, their chunks, two chats, both
documents in chat `c1` and `d2` also in chat `c2`, and one message. -/
def stSample : DBState :=
  ⟨[docA, docB], [chunkA, chunkB], [chatOne, chatTwo],
   [("c1", "d1"), ("c1", "d2"), ("c2", "d2")],
   [⟨"c2", "hi".toList, "hello".toList⟩]⟩

/-- Fixture: a store whose chat `c1` holds only `d1`, which has one chunk. -/
def stOneDoc : DBState :=
  ⟨[docA], [chunkA], [chatOne], [("c1", "d1")], []⟩

/-- Fixture: like `stOneDoc` but the document produced zero chunks. -/
def stOneDocNoChunks : DBState :=
  ⟨[docA], [], [chatOne], [("c1", "d1")], []⟩

/-- Fixture: an oracle whose collaborators all succeed trivially. -/
def oracleNull : QAOracle := ⟨.ok [], .ok [], .ok []⟩

/-- Fixture: a concrete system-status question. -/
def qSys : PyStr := "How many documents are loaded?".toList

/-! ## Basic lemmas about the string utilities -/

theorem isPrefixOf_append_self (x b : PyStr) : x.isPrefixOf (x ++ b) = true := by
  induction x with
  | nil => simp [List.isPrefixOf]
  | cons c t ih => simp [List.isPrefixOf, ih]

theorem isPrefixOf_extend {x h : PyStr} (b : PyStr)
    (hp : x.isPrefixOf h = true) : x.isPrefixOf (h ++ b) = true := by
  induction x generalizing h with
  | nil => simp [List.isPrefixOf]
  | cons c t ih =>
    cases h with
    | nil => simp [List.isPrefixOf] at hp
    | cons c' t' =>
      simp only [List.isPrefixOf, Bool.and_eq_true] at hp ⊢
      exact ⟨hp.1, ih hp.2⟩

theorem strContains_self_append (x q : PyStr) :
    strContains (x ++ q) x = true := by
  cases hxq : x ++ q with
  | nil => simp [strContains, List.append_eq_nil.mp hxq]
  | cons c t =>
    simp only [strContains, ← hxq]
    simp [isPrefixOf_append_self]

theorem strContains_parts (p x q : PyStr) :
    strContains (p ++ x ++ q) x = true := by
  induction p with
  | nil => simpa using strContains_self_append x q
  | cons c t ih =>
    rw [List.cons_append]
    simp only [strContains]
    simp only [Bool.or_eq_true]
    exact Or.inr (by simpa using ih)

theorem strContains_append_left {a x : PyStr} (b : PyStr)
    (h : strContains a x = true) : strContains (a ++ b) x = true := by
  induction a with
  | nil =>
    simp [strContains, List.isEmpty_iff] at h
    subst h
    exact strContains_parts [] [] b
  | cons c t ih =>
    simp only [strContains] at h
    rw [List.cons_append]
    simp only [strContains]
    simp only [Bool.or_eq_true] at h ⊢
    cases h with
    | inl h => exact Or.inl (by simpa using isPrefixOf_extend b h)
    | inr h => exact Or.inr (ih h)

theorem strContains_append_right {b x : PyStr} (a : PyStr)
    (h : strContains b x = true) : strContains (a ++ b) x = true := by
  induction a with
  | nil => simpa using h
  | cons c t ih =>
    rw [List.cons_append]
    simp only [strContains]
    simp only [Bool.or_eq_true]
    exact Or.inr ih

theorem pyJoin_mem_parts {x : PyStr} {xs : List PyStr} (sep : PyStr)
    (h : x ∈ xs) : ∃ p q, pyJoin sep xs = p ++ x ++ q := by
  induction xs with
  | nil => cases h
  | cons y ys ih =>
    cases h with
    | head =>
      cases ys with
      | nil => exact ⟨[], [], by simp [pyJoin]⟩
      | cons z zs => exact ⟨[], sep ++ pyJoin sep (z :: zs), by simp [pyJoin]⟩
    | tail _ hmem =>
      cases ys with
      | nil => cases hmem
      | cons z zs =>
        obtain ⟨p, q, hpq⟩ := ih hmem
        exact ⟨y ++ sep ++ p, q, by simp [pyJoin, hpq]⟩

theorem strContains_of_mem_join {x : PyStr} {xs : List PyStr} (sep : PyStr)
    (h : x ∈ xs) : strContains (pyJoin sep xs) x = true := by
  obtain ⟨p, q, hpq⟩ := pyJoin_mem_parts sep h
  rw [hpq]
  exact strContains_parts p x q

/-! ## C8 -/

/-- C8: for every query outcome, invoking the web search tool on any
transport or API failure returns the human-readable string
`"Serper Search error: {e}"` instead of raising: the call always
returns `.ok` and the failure case carries the formatted message. -/
theorem c8_web_search_no_raise (outcome : SerperOutcome) :
    (serperSearchRun outcome).isOk = true ∧
    (∀ e, outcome = .failure e →
      serperSearchRun outcome =
        .ok ("Serper Search error: ".toList ++ e)) := by
  constructor
  · cases outcome with
    | failure e => rfl
    | success organic =>
      by_cases h : organic.isEmpty <;> simp [serperSearchRun, serperBody, h, Except.isOk, Except.toBool]
  · intro e he
    subst he
    rfl

/-- Witness for C8 at a concrete failed request. -/
theorem c8_witness :
    serperSearchRun (.failure ("timeout".toList)) =
      .ok ("Serper Search error: timeout".toList) := by
  have h := (c8_web_search_no_raise (.failure ("timeout".toList))).2
    ("timeout".toList) rfl
  simpa using h

/-! ## Generic lemmas: insertion sort, lengths -/

theorem insertLe_perm (le : α → α → Bool) (x : α) (l : List α) :
    List.Perm (insertLe le x l) (x :: l) := by
  induction l with
  | nil => exact List.Perm.refl _
  | cons y ys ih =>
    by_cases h : le x y
    · simp [insertLe, h]
    · simp only [insertLe, h, if_neg, Bool.false_eq_true, not_false_iff]
      exact (ih.cons y).trans (List.Perm.swap x y ys)

theorem sortLe_perm (le : α → α → Bool) (l : List α) :
    List.Perm (sortLe le l) l := by
  induction l with
  | nil => exact List.Perm.refl _
  | cons x xs ih => exact (insertLe_perm le x (sortLe le xs)).trans (ih.cons x)

theorem mem_sortLe {le : α → α → Bool} {l : List α} {a : α} :
    a ∈ sortLe le l ↔ a ∈ l :=
  (sortLe_perm le l).mem_iff

theorem mem_insertLe {le : α → α → Bool} {x : α} {l : List α} {a : α} :
    a ∈ insertLe le x l ↔ a = x ∨ a ∈ l := by
  rw [(insertLe_perm le x l).mem_iff]
  simp

theorem pairwise_insertLe (le : α → α → Bool)
    (htot : ∀ a b, le a b = false → le b a = true)
    (htrans : ∀ a b c, le a b = true → le b c = true → le a c = true)
    (x : α) (l : List α) (h : l.Pairwise (fun a b => le a b = true)) :
    (insertLe le x l).Pairwise (fun a b => le a b = true) := by
  induction l with
  | nil => simp [insertLe]
  | cons y ys ih =>
    rw [List.pairwise_cons] at h
    by_cases hxy : le x y
    · simp only [insertLe, hxy, if_pos, List.pairwise_cons]
      refine ⟨?_, h.1, h.2⟩
      intro a' ha'
      rcases List.mem_cons.mp ha' with rfl | hmem
      · exact hxy
      · exact htrans x y a' hxy (h.1 a' hmem)
    · have hyx := htot x y (by simpa using hxy)
      simp only [insertLe, hxy, Bool.false_eq_true, if_neg, not_false_iff,
        List.pairwise_cons]
      refine ⟨?_, ih h.2⟩
      intro a' ha'
      rcases mem_insertLe.mp ha' with rfl | hmem
      · exact hyx
      · exact h.1 a' hmem

theorem pairwise_sortLe (le : α → α → Bool)
    (htot : ∀ a b, le a b = false → le b a = true)
    (htrans : ∀ a b c, le a b = true → le b c = true → le a c = true)
    (l : List α) : (sortLe le l).Pairwise (fun a b => le a b = true) := by
  induction l with
  | nil => simp [sortLe]
  | cons x xs ih => exact pairwise_insertLe le htot htrans x (sortLe le xs) ih

theorem dropWhile_length_le (p : α → Bool) (l : List α) :
    (l.dropWhile p).length ≤ l.length := by
  induction l with
  | nil => simp
  | cons x xs ih =>
    by_cases h : p x
    · simp [List.dropWhile, h]
      omega
    · simp [List.dropWhile, h]

theorem pyStrip_length_le (s : PyStr) : (pyStrip s).length ≤ s.length := by
  unfold pyStrip
  calc ((s.dropWhile pyIsSpace).reverse.dropWhile pyIsSpace).reverse.length
      = ((s.dropWhile pyIsSpace).reverse.dropWhile pyIsSpace).length := by
        simp
    _ ≤ (s.dropWhile pyIsSpace).reverse.length :=
        dropWhile_length_le pyIsSpace _
    _ = (s.dropWhile pyIsSpace).length := by simp
    _ ≤ s.length := dropWhile_length_le pyIsSpace s

theorem pyTitleGo_length (b : Bool) (s : PyStr) :
    (pyTitleGo b s).length = s.length := by
  induction s generalizing b with
  | nil => rfl
  | cons c cs ih => simp [pyTitleGo, ih]

theorem pyTitle_length (s : PyStr) : (pyTitle s).length = s.length :=
  pyTitleGo_length false s

theorem truncate25_length (x : PyStr) :
    (if x.length > 25 then x.take 22 ++ "...".toList else x).length ≤ 25 := by
  by_cases h : x.length > 25
  · simp only [h, if_pos, List.length_append, List.length_take]
    have h3 : ("...".toList : PyStr).length = 3 := rfl
    omega
  · simp only [h, if_neg, not_false_iff]
    omega

theorem generateSmartChatName_length (filename : PyStr) :
    (generateSmartChatName filename).length ≤ 25 := by
  simp only [generateSmartChatName, pyTitle_length]
  exact truncate25_length _

/-! ## C9 -/

/-- C9: `delete_document` removes exactly the document, its chunks and its
association rows with every chat, and leaves every other document, chunk,
association row, every chat row and every chat message unchanged. -/
theorem c9_delete_document_cascade (st : DBState) (doc : Doc) (did : String)
    (hmem : doc ∈ st.documents) (hid : doc.id = did) :
    (∀ d, d ∈ (deleteDocument st did).documents ↔ (d ∈ st.documents ∧ d.id ≠ did)) ∧
    (∀ c, c ∈ (deleteDocument st did).chunks ↔ (c ∈ st.chunks ∧ c.documentId ≠ did)) ∧
    (∀ p, p ∈ (deleteDocument st did).assoc ↔ (p ∈ st.assoc ∧ p.2 ≠ did)) ∧
    (deleteDocument st did).messages = st.messages ∧
    (deleteDocument st did).chats = st.chats := by
  have hfind : (getDocument st did).isSome := by
    apply List.find?_isSome.mpr
    exact ⟨doc, hmem, by simp [hid]⟩
  obtain ⟨d0, hd0⟩ := Option.isSome_iff_exists.mp hfind
  unfold deleteDocument
  rw [hd0]
  refine ⟨?_, ?_, ?_, rfl, rfl⟩ <;> intro x <;>
    simp [List.mem_filter]

/-- Witness for C9: deleting `d1` from the sample store keeps `d2`'s chunk
and the message log, and drops `d1`'s chunk. -/
theorem c9_witness :
    chunkB ∈ (deleteDocument stSample "d1").chunks ∧
    chunkA ∉ (deleteDocument stSample "d1").chunks ∧
    (deleteDocument stSample "d1").messages = stSample.messages := by
  obtain ⟨hdocs, hchunks, hassoc, hmsg, hchats⟩ :=
    c9_delete_document_cascade stSample docA "d1" (by decide) rfl
  refine ⟨(hchunks chunkB).mpr ⟨by decide, by decide⟩, ?_, hmsg⟩
  intro h
  exact absurd ((hchunks chunkA).mp h).2 (by decide)

/-! ## C5 -/

/-- C5 counterexample: `create_index` over zero chunks does not return a
null/empty index — the numpy shape access raises an `IndexError`. -/
theorem c5_counterexample :
    createIndex (fun _ => ([0] : List Int)) [] =
      Except.error ("tuple index out of range".toList) := rfl

/-- C5 (amended): `get_multi_document_retriever` returns null both for an
empty document-id set and for documents yielding zero chunks, while
`create_index` itself raises on a zero-chunk corpus (callers avoid it by
guarding first). -/
theorem c5_zero_chunk_amended (st : DBState) (ids : List String)
    (embed : PyStr → List Int) :
    (ids = [] → getMultiDocumentRetriever st ids = none) ∧
    (getChunksForDocuments st ids = [] → getMultiDocumentRetriever st ids = none) ∧
    createIndex embed [] = Except.error ("tuple index out of range".toList) := by
  refine ⟨?_, ?_, rfl⟩
  · intro h
    subst h
    rfl
  · intro h
    unfold getMultiDocumentRetriever
    by_cases hids : ids.isEmpty <;> simp [hids, h]

/-- Witness for C5 at concrete stores. -/
theorem c5_witness :
    getMultiDocumentRetriever stOneDoc [] = none ∧
    getMultiDocumentRetriever stOneDocNoChunks ["d1"] = none := by
  refine ⟨(c5_zero_chunk_amended stOneDoc [] (fun _ => [0])).1 rfl, ?_⟩
  exact (c5_zero_chunk_amended stOneDocNoChunks ["d1"] (fun _ => [0])).2.1 (by decide)

/-! ## Frame lemmas for the association operations -/

theorem removeDocumentFromChat_tables (st : DBState) (cid did : String) :
    (removeDocumentFromChat st cid did).documents = st.documents ∧
    (removeDocumentFromChat st cid did).chunks = st.chunks ∧
    (removeDocumentFromChat st cid did).chats = st.chats ∧
    (removeDocumentFromChat st cid did).messages = st.messages := by
  unfold removeDocumentFromChat
  refine ⟨?_, ?_, ?_, ?_⟩ <;> (split <;> first | rfl | (split <;> rfl))

theorem addDocumentToChatRow_tables (st : DBState) (cid did : String) :
    (addDocumentToChatRow st cid did).documents = st.documents ∧
    (addDocumentToChatRow st cid did).chunks = st.chunks ∧
    (addDocumentToChatRow st cid did).chats = st.chats ∧
    (addDocumentToChatRow st cid did).messages = st.messages := by
  unfold addDocumentToChatRow
  refine ⟨?_, ?_, ?_, ?_⟩ <;> (split <;> first | rfl | (split <;> rfl))

theorem getChatSession_rename (st : DBState) (cid : String) (newName : PyStr)
    {chat : ChatRec} (h : getChatSession st cid = some chat) :
    getChatSession (renameChatSession st cid newName) cid =
      some { chat with name := newName } := by
  unfold renameChatSession
  rw [h]
  unfold getChatSession at h ⊢
  rw [List.find?_map]
  have hcomp : ((fun c : ChatRec => c.id == cid) ∘
      (fun c : ChatRec => if c.id == cid then { c with name := newName } else c)) =
      (fun c : ChatRec => c.id == cid) := by
    funext c
    show ((if c.id == cid then { c with name := newName } else c).id == cid) =
      (c.id == cid)
    by_cases hc : (c.id == cid) = true
    · rw [if_pos hc]
    · rw [if_neg hc]
  rw [hcomp, h]
  have hid := List.find?_some h
  simp only [] at hid
  simp only [Option.map_some']
  rw [if_pos hid]

/-! ## C6 -/

/-- C6: the retrieval pool of a question is exactly the chunks of the
documents associated with the session at answer time (no chunk of a
never-associated document can appear); removing a document from the chat
touches neither the `documents` nor the `chunks` table, and after the
removal the document is no longer among the session's documents, so its
chunks are excluded from the next pool. -/
theorem c6_retrieval_scoping (st : DBState) (cid : String) (chat : ChatRec)
    (hchat : getChatSession st cid = some chat) :
    (∀ c, c ∈ getChunksForDocuments st ((chatDocuments st cid).map (fun d => d.id)) ↔
        (c ∈ st.chunks ∧ c.documentId ∈ (chatDocuments st cid).map (fun d => d.id))) ∧
    (∀ did, (removeDocumentFromChat st cid did).documents = st.documents ∧
        (removeDocumentFromChat st cid did).chunks = st.chunks) ∧
    (∀ did,
      did ∉ (chatDocuments (removeDocumentFromChat st cid did) cid).map (fun d => d.id)) := by
  refine ⟨?_, ?_, ?_⟩
  · intro c
    unfold getChunksForDocuments
    rw [mem_sortLe, List.mem_filter]
    simp [List.contains, List.elem_iff]
  · intro did
    exact ⟨(removeDocumentFromChat_tables st cid did).1,
      (removeDocumentFromChat_tables st cid did).2.1⟩
  · intro did hmem
    rw [List.mem_map] at hmem
    obtain ⟨d, hd, hdid⟩ := hmem
    unfold chatDocuments at hd
    rw [(removeDocumentFromChat_tables st cid did).1] at hd
    rw [List.mem_filterMap] at hd
    obtain ⟨p, hp, hfp⟩ := hd
    rw [List.mem_filter] at hp
    obtain ⟨hpassoc, hpcid⟩ := hp
    have hpid : d.id = p.2 := by
      have := List.find?_some hfp
      simpa using this
    have hp2 : p.2 = did := by rw [← hpid, hdid]
    have hp1 : p.1 = cid := by simpa using hpcid
    unfold removeDocumentFromChat at hpassoc
    rw [hchat] at hpassoc
    cases hdoc : getDocument st did with
    | none =>
      rw [hdoc] at hpassoc
      have : getDocument st did = some d := by
        unfold getDocument
        rw [← hp2]
        exact hfp
      rw [hdoc] at this
      exact Option.noConfusion this
    | some dd =>
      rw [hdoc] at hpassoc
      by_cases hass : st.assoc.contains (cid, did)
      · rw [if_pos hass] at hpassoc
        rw [List.mem_filter] at hpassoc
        have hkeep := hpassoc.2
        simp [hp1, hp2] at hkeep
      · rw [if_neg hass] at hpassoc
        have hpd : p = (cid, did) := Prod.ext hp1 hp2
        rw [hpd] at hpassoc
        have : st.assoc.contains (cid, did) = true := by
          simp [List.contains, List.elem_iff]
          exact hpassoc
        exact hass this

/-- Witness for C6 at the sample store. -/
theorem c6_witness :
    chunkA ∈ getChunksForDocuments stSample
      ((chatDocuments stSample "c1").map (fun d => d.id)) ∧
    (removeDocumentFromChat stSample "c1" "d1").chunks = stSample.chunks ∧
    "d1" ∉ (chatDocuments (removeDocumentFromChat stSample "c1" "d1") "c1").map
      (fun d => d.id) := by
  obtain ⟨h1, h2, h3⟩ := c6_retrieval_scoping stSample "c1" chatOne (by decide)
  exact ⟨(h1 chunkA).mpr ⟨by decide, by decide⟩, (h2 "d1").2, h3 "d1"⟩

/-! ## C10 -/

/-- C10: `add_document_to_chat` renames the session to the title-cased,
at-most-25-character name derived from the document's original filename
exactly when, right after the association is added, the chat holds one
document and still has a default-style name and the document exists; in
every other case the chat rows are left unchanged. -/
theorem c10_smart_rename (st : DBState) (cid did : String) :
    (smartRenameCond st cid did = true →
      ∃ doc, getDocument (addDocumentToChatRow st cid did) did = some doc ∧
        (getChatSession (addDocumentToChat st cid did) cid).map (fun c => c.name) =
          some (generateSmartChatName doc.originalName) ∧
        (generateSmartChatName doc.originalName).length ≤ 25) ∧
    (smartRenameCond st cid did = false →
      (addDocumentToChat st cid did).chats = st.chats) := by
  have hst1 := (addDocumentToChatRow_tables st cid did).2.2.1
  unfold addDocumentToChat smartRenameCond
  cases hchat : getChatSession (addDocumentToChatRow st cid did) cid with
  | none =>
    dsimp only
    exact ⟨fun h => absurd h (by simp), fun _ => hst1⟩
  | some chat =>
    cases hdoc : getDocument (addDocumentToChatRow st cid did) did with
    | none =>
      dsimp only
      refine ⟨fun h => absurd h (by simp), fun _ => ?_⟩
      split <;> exact hst1
    | some doc =>
      dsimp only
      by_cases hguard :
          ((chatDocuments (addDocumentToChatRow st cid did) cid).length == 1 &&
            (strContains chat.name ("New Chat".toList) ||
              strContains chat.name ("Chat ".toList))) = true
      · refine ⟨fun _ => ⟨doc, rfl, ?_, generateSmartChatName_length _⟩,
          fun h => absurd (hguard.symm.trans h) (by decide)⟩
        rw [if_pos hguard]
        rw [getChatSession_rename _ _ _ hchat]
        rfl
      · exact ⟨fun h => absurd h hguard, fun _ => by rw [if_neg hguard]; exact hst1⟩

/-- Witness for C10: adding `d1` to the fresh default-named chat renames it
to `A` (derived from `A.pdf`). -/
theorem c10_witness :
    (getChatSession (addDocumentToChat stOneDoc "c1" "d1") "c1").map
      (fun c => c.name) = some ("A".toList) := by
  obtain ⟨doc, hdoc, hname, hlen⟩ := (c10_smart_rename stOneDoc "c1" "d1").1 (by decide)
  have hdd : getDocument (addDocumentToChatRow stOneDoc "c1" "d1") "d1" = some docA := by
    decide
  have heq : doc = docA := Option.some.inj (hdoc.symm.trans hdd)
  rw [heq] at hname
  exact hname.trans (by decide)

/-! ## Reduction of `ask_question` past its guards -/

theorem askQuestion_reduce (st : DBState) (o : QAOracle) (cid : String)
    (question : PyStr) (chat : ChatRec) (r : Retriever)
    (hchat : getChatSession st cid = some chat)
    (hdocs : (chatDocuments st cid).isEmpty = false)
    (hret : getMultiDocumentRetriever st
      ((chatDocuments st cid).map (fun d => d.id)) = some r) :
    askQuestion st o cid question =
      if isSystemQuestion question then
        ⟨systemAnswer (chatDocuments st cid),
          createChatMessage st cid question (systemAnswer (chatDocuments st cid)),
          ⟨1, 0, 0, 0⟩⟩
      else
        match o.retrieved with
        | .error _ => agentStep st o cid question 1 0
        | .ok rdocs =>
          if rdocs.isEmpty then agentStep st o cid question 1 0
          else
            match o.directAnswer with
            | .error _ => agentStep st o cid question 1 1
            | .ok a =>
              if !a.isEmpty && !(strContains a uncertainMarker) then
                ⟨a, createChatMessage st cid question a, ⟨1, 1, 1, 0⟩⟩
              else agentStep st o cid question 1 1 := by
  unfold askQuestion
  rw [hchat]
  dsimp only
  rw [if_neg (show ¬((chatDocuments st cid).isEmpty = true) by simp [hdocs])]
  rw [hret]

theorem agentStep_spec (st : DBState) (o : QAOracle) (cid : String)
    (question : PyStr) (s l : Nat) :
    (∀ a, o.agentAnswer = .ok a →
      (agentStep st o cid question s l).result = a ∧
      (agentStep st o cid question s l).state.messages =
        st.messages ++ [⟨cid, question, a⟩]) ∧
    (o.agentAnswer = .error () →
      (agentStep st o cid question s l).result = apologyMsg ∧
      (agentStep st o cid question s l).state.messages = st.messages) := by
  constructor
  · intro a ha
    unfold agentStep
    rw [ha]
    exact ⟨rfl, rfl⟩
  · intro ha
    unfold agentStep
    rw [ha]
    exact ⟨rfl, rfl⟩

theorem agentStep_agentRuns (st : DBState) (o : QAOracle) (cid : String)
    (question : PyStr) (s l : Nat) :
    (agentStep st o cid question s l).effects.agentRuns = 1 := by
  unfold agentStep
  cases o.agentAnswer <;> rfl

/-! ## Facts about the system-status answer -/

theorem systemAnswer_contains_count (docs : List Doc) :
    strContains (systemAnswer docs) (pyStrOfNat docs.length) = true := by
  unfold systemAnswer
  by_cases h1 : (docs.length == 1) = true
  · rw [if_pos h1]
    have hl : docs.length = 1 := by simpa using h1
    rw [hl]
    have h1c : pyStrOfNat 1 = ['1'] := by decide
    rw [h1c]
    apply strContains_append_left
    apply strContains_append_left
    apply strContains_append_left
    decide
  · rw [if_neg h1]
    have := strContains_parts ("Yes, there are ".toList) (pyStrOfNat docs.length)
      (" PDF documents in this chat: ".toList ++
        pyJoin (", ".toList) (docs.map (fun d => d.originalName)) ++ ".".toList)
    simpa [List.append_assoc] using this

theorem systemAnswer_contains_names (docs : List Doc) (d : Doc) (hd : d ∈ docs) :
    strContains (systemAnswer docs) d.originalName = true := by
  unfold systemAnswer
  by_cases h1 : (docs.length == 1) = true
  · rw [if_pos h1]
    have hl : docs.length = 1 := by simpa using h1
    obtain ⟨d0, rfl⟩ : ∃ d0, docs = [d0] := by
      cases docs with
      | nil => simp at hl
      | cons x xs =>
        cases xs with
        | nil => exact ⟨x, rfl⟩
        | cons y ys => simp at hl
    have hdd : d = d0 := by simpa using hd
    subst hdd
    have := strContains_parts
      ("Yes, there is 1 PDF document in this chat: ".toList ++ ['\''])
      d.originalName (['\''] ++ ".".toList)
    simpa [List.append_assoc] using this
  · rw [if_neg h1]
    have hmem : d.originalName ∈ docs.map (fun d => d.originalName) :=
      List.mem_map_of_mem _ hd
    obtain ⟨p, q, hpq⟩ := pyJoin_mem_parts (", ".toList) hmem
    rw [hpq]
    have := strContains_parts
      ("Yes, there are ".toList ++ pyStrOfNat docs.length ++
        " PDF documents in this chat: ".toList ++ p)
      d.originalName (q ++ ".".toList)
    simpa [List.append_assoc] using this

/-! ## C1 -/

/-- C1 counterexample. First part: for a session with one document and one
chunk, a system-status question is answered while the FAISS index over the
chat's chunks has been built (`indexBuilds = 1`), i.e. an embedding
operation *is* invoked, contradicting "without invoking ... any
retrieval/embedding operation". Second part: for a session with one
associated document but zero chunks, the reply is the fixed no-content
message, which is not an answer computed from session metadata. -/
theorem c1_counterexample :
    (isSystemQuestion qSys = true ∧
      (chatDocuments stOneDoc "c1").length = 1 ∧
      (askQuestion stOneDoc oracleNull "c1" qSys).effects.indexBuilds = 1) ∧
    ((chatDocuments stOneDocNoChunks "c1").length = 1 ∧
      (askQuestion stOneDocNoChunks oracleNull "c1" qSys).result = noContentMsg) := by
  decide

/-- C1 (amended): for a session whose documents yield at least one chunk,
a system-status question is answered deterministically from the session
metadata — the answer is a pure function of the chat's document list,
contains the document count and every document's original name — without
invoking the language model, any similarity search or the agent; the
embedding index over the chat's chunks is built (once) before the check. -/
theorem c1_system_tier_amended (st : DBState) (o : QAOracle) (cid : String)
    (question : PyStr) (chat : ChatRec) (r : Retriever)
    (hchat : getChatSession st cid = some chat)
    (hdocs : (chatDocuments st cid).isEmpty = false)
    (hret : getMultiDocumentRetriever st
      ((chatDocuments st cid).map (fun d => d.id)) = some r)
    (hsys : isSystemQuestion question = true) :
    (askQuestion st o cid question).result = systemAnswer (chatDocuments st cid) ∧
    strContains (askQuestion st o cid question).result
      (pyStrOfNat (chatDocuments st cid).length) = true ∧
    (∀ d ∈ chatDocuments st cid,
      strContains (askQuestion st o cid question).result d.originalName = true) ∧
    (askQuestion st o cid question).effects = ⟨1, 0, 0, 0⟩ := by
  rw [askQuestion_reduce st o cid question chat r hchat hdocs hret, if_pos hsys]
  refine ⟨rfl, systemAnswer_contains_count _, ?_, rfl⟩
  intro d hd
  exact systemAnswer_contains_names _ d hd

/-- Witness for C1 (amended) at the one-document store. -/
theorem c1_witness :
    (askQuestion stOneDoc oracleNull "c1" qSys).result =
      systemAnswer (chatDocuments stOneDoc "c1") ∧
    (askQuestion stOneDoc oracleNull "c1" qSys).effects = ⟨1, 0, 0, 0⟩ := by
  obtain ⟨h1, h2, h3, h4⟩ := c1_system_tier_amended stOneDoc oracleNull "c1" qSys
    chatOne ⟨[chunkA.content], SIMILARITY_TOP_K⟩
    (by decide) (by decide) (by decide) (by decide)
  exact ⟨h1, h4⟩

/-! ## C3 -/

/-- C3: whichever tier produces the final answer (system-status, direct,
or agentic), exactly one `(question, answer)` chat message is appended to
the session before the answer is returned; when the agent tier raises and
the flow degrades to the generic apology, nothing is persisted. -/
theorem c3_message_persistence (st : DBState) (o : QAOracle) (cid : String)
    (question : PyStr) (chat : ChatRec) (r : Retriever)
    (hchat : getChatSession st cid = some chat)
    (hdocs : (chatDocuments st cid).isEmpty = false)
    (hret : getMultiDocumentRetriever st
      ((chatDocuments st cid).map (fun d => d.id)) = some r) :
    (isSystemQuestion question = true →
      (askQuestion st o cid question).state.messages =
        st.messages ++ [⟨cid, question, (askQuestion st o cid question).result⟩]) ∧
    (isSystemQuestion question = false → directTierReturns o = true →
      (askQuestion st o cid question).state.messages =
        st.messages ++ [⟨cid, question, (askQuestion st o cid question).result⟩]) ∧
    (isSystemQuestion question = false → directTierReturns o = false →
      (∀ a, o.agentAnswer = .ok a →
        (askQuestion st o cid question).result = a ∧
        (askQuestion st o cid question).state.messages =
          st.messages ++ [⟨cid, question, a⟩]) ∧
      (o.agentAnswer = .error () →
        (askQuestion st o cid question).result = apologyMsg ∧
        (askQuestion st o cid question).state.messages = st.messages)) := by
  rw [askQuestion_reduce st o cid question chat r hchat hdocs hret]
  refine ⟨?_, ?_, ?_⟩
  · intro hsys
    rw [if_pos hsys]
    rfl
  · intro hsys hdir
    rw [if_neg (by simp [hsys])]
    unfold directTierReturns at hdir
    cases hr : o.retrieved with
    | error e => rw [hr] at hdir; exact absurd hdir (by simp)
    | ok rdocs =>
      rw [hr] at hdir
      dsimp only
      cases hda : o.directAnswer with
      | error e => rw [hda] at hdir; exact absurd hdir (by simp)
      | ok a =>
        rw [hda] at hdir
        dsimp only at hdir
        have hne : rdocs.isEmpty = false := by
          by_cases hh : rdocs.isEmpty = true
          · rw [hh] at hdir
            exact absurd hdir (by simp)
          · simpa using hh
        rw [hne] at hdir
        have hgood : (!a.isEmpty && !(strContains a uncertainMarker)) = true := by
          simp only [Bool.not_false, Bool.true_and] at hdir
          exact hdir
        rw [if_neg (by simp [hne])]
        dsimp only
        rw [if_pos hgood]
        rfl
  · intro hsys hdir
    rw [if_neg (by simp [hsys])]
    unfold directTierReturns at hdir
    cases hr : o.retrieved with
    | error e => exact agentStep_spec st o cid question 1 0
    | ok rdocs =>
      rw [hr] at hdir
      dsimp only
      by_cases hne : rdocs.isEmpty = true
      · rw [if_pos hne]
        exact agentStep_spec st o cid question 1 0
      · rw [if_neg hne]
        cases hda : o.directAnswer with
        | error e => exact agentStep_spec st o cid question 1 1
        | ok a =>
          rw [hda] at hdir
          dsimp only at hdir
          dsimp only
          have hne' : rdocs.isEmpty = false := by simpa using hne
          rw [hne'] at hdir
          have hbad : (!a.isEmpty && !(strContains a uncertainMarker)) = false := by
            simp only [Bool.not_false, Bool.true_and] at hdir
            exact hdir
          rw [if_neg (by simp [hbad])]
          exact agentStep_spec st o cid question 1 1

/-- Witness for C3 at the system tier of the one-document store. -/
theorem c3_witness :
    (askQuestion stOneDoc oracleNull "c1" qSys).state.messages =
      stOneDoc.messages ++
        [⟨"c1", qSys, (askQuestion stOneDoc oracleNull "c1" qSys).result⟩] := by
  exact (c3_message_persistence stOneDoc oracleNull "c1" qSys chatOne
    ⟨[chunkA.content], SIMILARITY_TOP_K⟩ (by decide) (by decide) (by decide)).1
    (by decide)

/-! ## C4 -/

/-- C4: for a question that reaches the direct tier (non-system question,
retrieval returned documents, the QA chain returned an answer), an empty
answer or one containing the "I don't know" marker makes the flow fall
through to the agent tier, while a good answer is returned directly and
the agent loop is never invoked. -/
theorem c4_direct_tier_fallback (st : DBState) (o : QAOracle) (cid : String)
    (question : PyStr) (chat : ChatRec) (r : Retriever) (rdocs : List PyStr)
    (a : PyStr)
    (hchat : getChatSession st cid = some chat)
    (hdocs : (chatDocuments st cid).isEmpty = false)
    (hret : getMultiDocumentRetriever st
      ((chatDocuments st cid).map (fun d => d.id)) = some r)
    (hsys : isSystemQuestion question = false)
    (hr : o.retrieved = .ok rdocs) (hne : rdocs.isEmpty = false)
    (hda : o.directAnswer = .ok a) :
    ((!a.isEmpty && !(strContains a uncertainMarker)) = true →
      (askQuestion st o cid question).result = a ∧
      (askQuestion st o cid question).effects.agentRuns = 0) ∧
    ((!a.isEmpty && !(strContains a uncertainMarker)) = false →
      (askQuestion st o cid question).effects.agentRuns = 1) := by
  rw [askQuestion_reduce st o cid question chat r hchat hdocs hret]
  rw [if_neg (by simp [hsys]), hr]
  dsimp only
  rw [if_neg (by simp [hne]), hda]
  dsimp only
  constructor
  · intro hgood
    rw [if_pos hgood]
    exact ⟨rfl, rfl⟩
  · intro hbad
    rw [if_neg (by simp [hbad])]
    exact agentStep_agentRuns st o cid question 1 1

/-- Witness for C4: a good direct answer is returned without the agent,
and an empty direct answer routes the same question to the agent. -/
theorem c4_witness :
    (askQuestion stOneDoc
      ⟨.ok ["alpha text".toList], .ok ("Alpha is a letter.".toList),
        .ok ("agent says hi".toList)⟩ "c1" ("What is alpha?".toList)).result =
      "Alpha is a letter.".toList ∧
    (askQuestion stOneDoc
      ⟨.ok ["alpha text".toList], .ok [], .ok ("agent says hi".toList)⟩
      "c1" ("What is alpha?".toList)).effects.agentRuns = 1 := by
  refine ⟨?_, ?_⟩
  · exact ((c4_direct_tier_fallback stOneDoc
      ⟨.ok ["alpha text".toList], .ok ("Alpha is a letter.".toList),
        .ok ("agent says hi".toList)⟩ "c1" ("What is alpha?".toList) chatOne
      ⟨[chunkA.content], SIMILARITY_TOP_K⟩ ["alpha text".toList]
      ("Alpha is a letter.".toList) (by decide) (by decide) (by decide)
      (by decide) rfl (by decide) rfl).1 (by decide)).1
  · exact (c4_direct_tier_fallback stOneDoc
      ⟨.ok ["alpha text".toList], .ok [], .ok ("agent says hi".toList)⟩
      "c1" ("What is alpha?".toList) chatOne
      ⟨[chunkA.content], SIMILARITY_TOP_K⟩ ["alpha text".toList] []
      (by decide) (by decide) (by decide) (by decide) rfl (by decide) rfl).2
      (by decide)

/-! ## Ordering facts for the FAISS model -/

theorem pairLe_total (a b : Int × Int) (h : pairLe a b = false) :
    pairLe b a = true := by
  have h' : ¬(a.1 < b.1 ∨ (a.1 = b.1 ∧ a.2 ≤ b.2)) := by
    intro hcon
    rw [show pairLe a b = true from by
      simp only [pairLe, Bool.or_eq_true, decide_eq_true_eq, Bool.and_eq_true,
        beq_iff_eq]
      exact hcon] at h
    simp at h
  simp only [pairLe, Bool.or_eq_true, decide_eq_true_eq, Bool.and_eq_true,
    beq_iff_eq]
  omega

theorem pairLe_trans (a b c : Int × Int) (h1 : pairLe a b = true)
    (h2 : pairLe b c = true) : pairLe a c = true := by
  simp only [pairLe, Bool.or_eq_true, decide_eq_true_eq, Bool.and_eq_true,
    beq_iff_eq] at h1 h2 ⊢
  omega

theorem scored_mem {vectors : List (List Int)} {qv : List Int} {p : Int × Int}
    (hp : p ∈ vectors.enum.map (fun q => (l2sq q.2 qv, (q.1 : Int)))) :
    0 ≤ p.2 ∧ p.2 < (vectors.length : Int) ∧
      p.1 = l2sq (vectors.getD p.2.toNat []) qv := by
  rw [List.mem_map] at hp
  obtain ⟨q, hq, rfl⟩ := hp
  have hlt : q.1 < vectors.length := List.fst_lt_of_mem_enum hq
  have hget : vectors[q.1]? = some q.2 := List.mem_enum_iff_getElem?.mp hq
  dsimp only
  refine ⟨Int.natCast_nonneg _, by exact_mod_cast hlt, ?_⟩
  have htn : ((q.1 : Int)).toNat = q.1 := Int.toNat_natCast _
  rw [htn, List.getD_eq_getElem?_getD, hget]
  rfl

/-! ## C2 -/

/-- C2 counterexample: with a one-chunk corpus and `k = 2`, FAISS pads the
result with index `-1`; the guard `idx < len(self.texts)` does not filter
`-1`, and Python's negative indexing resolves it to the last chunk, so
`similarity_search` returns 2 results, not `min(k, n) = 1` — the second
being a spurious duplicate of the last chunk. -/
theorem c2_counterexample :
    (similaritySearch (fun _ => ([0] : List Int)) ["a".toList] ("q".toList) 2).length = 2 ∧
    min 2 (["a".toList] : List PyStr).length = 1 ∧
    (similaritySearch (fun _ => ([0] : List Int)) ["a".toList] ("q".toList) 2).map
      (fun h => h.index) = [0, -1] := by
  decide

/-- C2 (amended): whenever `k ≤ n`, `similarity_search` returns exactly
`min(k, n)` results, each a genuine chunk (index in range, content looked
up at that index), ordered by non-decreasing squared L2 distance to the
query embedding with ties broken by the original chunk order; when
`k > n`, FAISS pads with `-1` indices that the bound check fails to
filter, so `k` results come back with the padding resolving (by Python
negative indexing) to the last chunk. -/
theorem c2_similarity_search_amended (embed : PyStr → List Int)
    (texts : List PyStr) (query : PyStr) (k : Nat) (hk : k ≤ texts.length) :
    (similaritySearch embed texts query k).length = min k texts.length ∧
    (∀ h ∈ similaritySearch embed texts query k,
      0 ≤ h.index ∧ h.index < (texts.length : Int) ∧
        h.content = pyGet texts h.index) ∧
    (similaritySearch embed texts query k).Pairwise (fun h1 h2 =>
      l2sq ((texts.map embed).getD h1.index.toNat []) (embed query) <
        l2sq ((texts.map embed).getD h2.index.toNat []) (embed query) ∨
      (l2sq ((texts.map embed).getD h1.index.toNat []) (embed query) =
        l2sq ((texts.map embed).getD h2.index.toNat []) (embed query) ∧
        h1.index < h2.index)) := by
  set vectors := texts.map embed with hvec
  set qv := embed query with hqv
  set scored := vectors.enum.map (fun q => (l2sq q.2 qv, (q.1 : Int))) with hscored
  set sorted := sortLe pairLe scored with hsorted
  have hperm : List.Perm sorted scored := sortLe_perm pairLe scored
  have hveclen : vectors.length = texts.length := by
    rw [hvec, List.length_map]
  have hsortedlen : sorted.length = texts.length := by
    rw [hperm.length_eq, hscored, List.length_map, List.enum_length, hveclen]
  have htklen : (sorted.take k).length = k := by
    rw [List.length_take, hsortedlen]
    omega
  set taken := sorted.take k with htaken
  have htakenmem : ∀ p ∈ taken, 0 ≤ p.2 ∧ p.2 < (texts.length : Int) ∧
      p.1 = l2sq (vectors.getD p.2.toNat []) qv := by
    intro p hp
    have hin : p ∈ scored := hperm.mem_iff.mp (List.mem_of_mem_take hp)
    rw [hscored] at hin
    have := scored_mem hin
    rw [hveclen] at this
    exact this
  have htop : faissSearchIdx vectors qv k = taken.map (fun p => p.2) := by
    unfold faissSearchIdx
    dsimp only
    rw [← hscored, ← hsorted, ← htaken]
    rw [List.length_map, htaken, htklen]
    simp
  have hfilter : (taken.map (fun p => p.2)).filter
      (fun idx => decide (idx < (texts.length : Int))) = taken.map (fun p => p.2) := by
    rw [List.filter_eq_self]
    intro idx hidx
    rw [List.mem_map] at hidx
    obtain ⟨p, hp, rfl⟩ := hidx
    simpa using (htakenmem p hp).2.1
  have hss : similaritySearch embed texts query k =
      taken.map (fun p => (⟨pyGet texts p.2, p.2⟩ : SearchHit)) := by
    unfold similaritySearch
    dsimp only
    rw [← hvec, ← hqv, htop, hfilter, List.map_map]
    rfl
  refine ⟨?_, ?_, ?_⟩
  · rw [hss, List.length_map, htaken, htklen]
    omega
  · intro h hmem
    rw [hss, List.mem_map] at hmem
    obtain ⟨p, hp, rfl⟩ := hmem
    obtain ⟨h0, h1, _⟩ := htakenmem p hp
    exact ⟨h0, h1, rfl⟩
  · rw [hss, List.pairwise_map]
    have hpw : taken.Pairwise (fun a b => pairLe a b = true) :=
      List.Pairwise.sublist (List.take_sublist k sorted)
        (pairwise_sortLe pairLe pairLe_total pairLe_trans scored)
    have hnd0 : (scored.map (fun p => p.2)).Nodup := by
      rw [hscored, List.map_map]
      rw [show ((fun p : Int × Int => p.2) ∘
          (fun q : Nat × List Int => (l2sq q.2 qv, (q.1 : Int)))) =
          ((fun i : Nat => (i : Int)) ∘ Prod.fst) from rfl]
      rw [← List.map_map, List.enum_map_fst]
      exact List.Nodup.map (fun a b h => by exact_mod_cast h) (List.nodup_range _)
    have hnd1 : (sorted.map (fun p => p.2)).Nodup :=
      hnd0.perm (hperm.map (fun p => p.2)).symm
    have hnd : (taken.map (fun p => p.2)).Nodup :=
      List.Nodup.sublist (List.Sublist.map _ (List.take_sublist k sorted)) hnd1
    have hne : taken.Pairwise (fun a b => a.2 ≠ b.2) := List.pairwise_map.mp hnd
    refine List.Pairwise.imp_of_mem ?_ (hpw.and hne)
    intro a b ha hb hr
    obtain ⟨hle, hneq⟩ := hr
    have hfa := (htakenmem a ha).2.2
    have hfb := (htakenmem b hb).2.2
    dsimp only
    rw [← hfa, ← hfb]
    simp only [pairLe, Bool.or_eq_true, decide_eq_true_eq, Bool.and_eq_true,
      beq_iff_eq] at hle
    omega

/-- Witness for C2 (amended) on a concrete two-chunk corpus. -/
theorem c2_witness :
    (similaritySearch
      (fun s => if s = "a".toList then ([0] : List Int)
        else if s = "b".toList then [3] else [1])
      ["a".toList, "b".toList] ("q".toList) 2).length = min 2 2 := by
  exact (c2_similarity_search_amended
    (fun s => if s = "a".toList then ([0] : List Int)
      else if s = "b".toList then [3] else [1])
    ["a".toList, "b".toList] ("q".toList) 2 (by decide)).1

/-! ## Chunk-size bound for `_merge_splits` -/

theorem sepWeight_cons (s : Nat) (c0 : PyStr) (rest : List PyStr) :
    sepWeight s (c0 :: rest) =
      c0.length + (if rest.length > 0 then s else 0) + sepWeight s rest := by
  cases rest with
  | nil => simp [sepWeight]
  | cons y ys =>
    simp only [sepWeight, List.map_cons, List.sum_cons, List.length_cons,
      if_pos (Nat.succ_pos ys.length)]
    have h1 : ys.length + 1 + 1 - 1 = ys.length + 1 := rfl
    have h2 : ys.length + 1 - 1 = ys.length := rfl
    rw [h1, h2, Nat.mul_succ]
    omega

theorem sepWeight_append (s : Nat) (xs : List PyStr) (d : PyStr) :
    sepWeight s (xs ++ [d]) =
      sepWeight s xs + d.length + (if xs.length > 0 then s else 0) := by
  induction xs with
  | nil => simp [sepWeight]
  | cons y ys ih =>
    rw [List.cons_append, sepWeight_cons, ih, sepWeight_cons s y ys]
    rw [if_pos (show (ys ++ [d]).length > 0 by simp)]
    rw [if_pos (show (y :: ys).length > 0 by simp)]
    omega

theorem sepWeight_pos (s : Nat) (xs : List PyStr) (hne : ∀ x ∈ xs, x ≠ [])
    (hxs : xs ≠ []) : 1 ≤ sepWeight s xs := by
  cases xs with
  | nil => exact absurd rfl hxs
  | cons y ys =>
    rw [sepWeight_cons]
    have hy : y ≠ [] := hne y (List.mem_cons_self _ _)
    have hy1 : 1 ≤ y.length := by
      cases y with
      | nil => exact absurd rfl hy
      | cons _ _ => simp
    omega

theorem pyJoin_length (sep : PyStr) (ds : List PyStr) :
    (pyJoin sep ds).length = sepWeight sep.length ds := by
  induction ds with
  | nil => simp [pyJoin, sepWeight]
  | cons x xs ih =>
    cases xs with
    | nil => simp [pyJoin, sepWeight]
    | cons y ys =>
      simp only [pyJoin, List.length_append]
      rw [ih, sepWeight_cons sep.length x (y :: ys), sepWeight_cons sep.length y ys]
      rw [if_pos (show (y :: ys).length > 0 by simp)]

theorem joinDocs_length (ds : List PyStr) (sep : PyStr) (doc : PyStr)
    (h : joinDocs ds sep = some doc) : doc.length ≤ sepWeight sep.length ds := by
  simp only [joinDocs] at h
  split at h
  · exact Option.noConfusion h
  · have hdoc : doc = pyStrip (pyJoin sep ds) := (Option.some.inj h).symm
    rw [hdoc]
    calc (pyStrip (pyJoin sep ds)).length
        ≤ (pyJoin sep ds).length := pyStrip_length_le _
      _ = sepWeight sep.length ds := pyJoin_length sep ds

theorem ite_len_append (s : Nat) (xs : List PyStr) (d : PyStr) :
    (if (xs ++ [d]).length > 1 then s else 0) =
      (if xs.length > 0 then s else 0) := by
  by_cases hq : xs.length > 0
  · rw [if_pos (show (xs ++ [d]).length > 1 by
      simp only [List.length_append, List.length_singleton]
      omega), if_pos hq]
  · rw [if_neg (show ¬((xs ++ [d]).length > 1) by
      simp only [List.length_append, List.length_singleton]
      omega), if_neg hq]

theorem popLoop_spec (sepLen dLen : Nat) (cur : List PyStr) (total : Nat)
    (hw : total = sepWeight sepLen cur) (hne : ∀ x ∈ cur, x ≠ []) :
    (popLoop sepLen dLen cur total).2 =
      sepWeight sepLen (popLoop sepLen dLen cur total).1 ∧
    (∀ x ∈ (popLoop sepLen dLen cur total).1, x ≠ []) ∧
    ((popLoop sepLen dLen cur total).1 = [] ∨
      ((popLoop sepLen dLen cur total).2 ≤ CHUNK_OVERLAP ∧
        ((popLoop sepLen dLen cur total).2 + dLen +
          (if (popLoop sepLen dLen cur total).1.length > 0 then sepLen else 0) ≤
            CHUNK_SIZE ∨
          (popLoop sepLen dLen cur total).2 = 0))) := by
  induction cur generalizing total with
  | nil =>
    refine ⟨?_, ?_, Or.inl rfl⟩
    · simpa [popLoop, sepWeight] using hw
    · intro x hx
      simp [popLoop] at hx
  | cons c0 rest ih =>
    by_cases hcond : total > CHUNK_OVERLAP ∨
        (total + dLen + (if (c0 :: rest).length > 0 then sepLen else 0) >
          CHUNK_SIZE ∧ total > 0)
    · have hstep : popLoop sepLen dLen (c0 :: rest) total =
          popLoop sepLen dLen rest
            (total - (c0.length + if rest.length > 0 then sepLen else 0)) := by
        simp only [popLoop, if_pos hcond]
      rw [hstep]
      have hw' : total - (c0.length + if rest.length > 0 then sepLen else 0) =
          sepWeight sepLen rest := by
        rw [hw, sepWeight_cons]
        omega
      exact ih _ hw' (fun x hx => hne x (List.mem_cons_of_mem _ hx))
    · have hstep : popLoop sepLen dLen (c0 :: rest) total = (c0 :: rest, total) := by
        simp only [popLoop, if_neg hcond]
      rw [hstep]
      dsimp only
      push_neg at hcond
      refine ⟨hw, hne, Or.inr ⟨hcond.1, ?_⟩⟩
      omega

theorem mergeStep_inv (sep : PyStr) (st : MergeSt) (d : PyStr)
    (hd : d ≠ []) (hdlen : d.length < CHUNK_SIZE)
    (h1 : st.total = sepWeight sep.length st.current)
    (h2 : st.total ≤ CHUNK_SIZE)
    (h3 : ∀ x ∈ st.current, x ≠ [])
    (h4 : ∀ doc ∈ st.docs, doc.length ≤ CHUNK_SIZE) :
    (mergeStep sep st d).total = sepWeight sep.length (mergeStep sep st d).current ∧
    (mergeStep sep st d).total ≤ CHUNK_SIZE ∧
    (∀ x ∈ (mergeStep sep st d).current, x ≠ []) ∧
    (∀ doc ∈ (mergeStep sep st d).docs, doc.length ≤ CHUNK_SIZE) := by
  unfold mergeStep
  dsimp only
  by_cases hflush : st.total + d.length +
      (if st.current.length > 0 then sep.length else 0) > CHUNK_SIZE
  · rw [if_pos hflush]
    by_cases hcur : st.current.length > 0
    · rw [if_pos hcur]
      obtain ⟨p1, p2, p3⟩ :=
        popLoop_spec sep.length d.length st.current st.total h1 h3
      dsimp only
      refine ⟨?_, ?_, ?_, ?_⟩
      · rw [sepWeight_append, ite_len_append]
        omega
      · rcases p3 with hnil | ⟨hov, hfit⟩
        · rw [hnil] at p1
          simp only [sepWeight, List.map_nil, List.sum_nil, List.length_nil] at p1
          rw [ite_len_append, hnil]
          rw [if_neg (show ¬(([] : List PyStr).length > 0) by simp)]
          omega
        · rcases hfit with hfit | hzero
          · rw [ite_len_append]
            omega
          · by_cases hq : (popLoop sep.length d.length st.current st.total).1 = []
            · rw [ite_len_append, hq]
              rw [if_neg (show ¬(([] : List PyStr).length > 0) by simp)]
              omega
            · exfalso
              have := sepWeight_pos sep.length _ p2 hq
              omega
      · intro x hx
        rcases List.mem_append.mp hx with hmem | hmem
        · exact p2 x hmem
        · have hxd : x = d := by simpa using hmem
          rw [hxd]
          exact hd
      · cases hj : joinDocs st.current sep with
        | none =>
          intro doc hdoc
          exact h4 doc hdoc
        | some doc0 =>
          intro doc hdoc
          rcases List.mem_append.mp hdoc with hmem | hmem
          · exact h4 doc hmem
          · have hdd : doc = doc0 := by simpa using hmem
            rw [hdd]
            have := joinDocs_length _ _ _ hj
            omega
    · exfalso
      have hcur0 : st.current = [] :=
        List.length_eq_zero.mp (Nat.le_zero.mp (Nat.not_lt.mp hcur))
      rw [if_neg hcur] at hflush
      rw [hcur0] at h1
      simp only [sepWeight, List.map_nil, List.sum_nil, List.length_nil] at h1
      omega
  · rw [if_neg hflush]
    refine ⟨?_, ?_, ?_, h4⟩
    · rw [sepWeight_append, ite_len_append]
      omega
    · rw [ite_len_append]
      omega
    · intro x hx
      rcases List.mem_append.mp hx with hmem | hmem
      · exact h3 x hmem
      · have hxd : x = d := by simpa using hmem
        rw [hxd]
        exact hd

theorem mergeSplits_foldl_inv (sep : PyStr) (splits : List PyStr)
    (hsp : ∀ s ∈ splits, s ≠ [] ∧ s.length < CHUNK_SIZE) :
    ∀ st : MergeSt, st.total = sepWeight sep.length st.current →
      st.total ≤ CHUNK_SIZE → (∀ x ∈ st.current, x ≠ []) →
      (∀ doc ∈ st.docs, doc.length ≤ CHUNK_SIZE) →
      ((splits.foldl (mergeStep sep) st).total =
        sepWeight sep.length (splits.foldl (mergeStep sep) st).current ∧
      (splits.foldl (mergeStep sep) st).total ≤ CHUNK_SIZE ∧
      (∀ x ∈ (splits.foldl (mergeStep sep) st).current, x ≠ []) ∧
      (∀ doc ∈ (splits.foldl (mergeStep sep) st).docs,
        doc.length ≤ CHUNK_SIZE)) := by
  induction splits with
  | nil =>
    intro st h1 h2 h3 h4
    exact ⟨h1, h2, h3, h4⟩
  | cons s ss ih =>
    intro st h1 h2 h3 h4
    have hs := hsp s (List.mem_cons_self _ _)
    obtain ⟨m1, m2, m3, m4⟩ := mergeStep_inv sep st s hs.1 hs.2 h1 h2 h3 h4
    exact ih (fun x hx => hsp x (List.mem_cons_of_mem _ hx))
      (mergeStep sep st s) m1 m2 m3 m4

theorem mergeSplits_le (splits : List PyStr) (sep : PyStr)
    (hsp : ∀ s ∈ splits, s ≠ [] ∧ s.length < CHUNK_SIZE) :
    ∀ doc ∈ mergeSplits splits sep, doc.length ≤ CHUNK_SIZE := by
  intro doc hdoc
  simp only [mergeSplits] at hdoc
  obtain ⟨f1, f2, f3, f4⟩ := mergeSplits_foldl_inv sep splits hsp ⟨[], [], 0⟩
    (by simp [sepWeight]) (by simp [CHUNK_SIZE]) (by simp) (by simp)
  cases hj : joinDocs (splits.foldl (mergeStep sep) ⟨[], [], 0⟩).current sep with
  | none =>
    rw [hj] at hdoc
    exact f4 doc hdoc
  | some doc0 =>
    rw [hj] at hdoc
    rcases List.mem_append.mp hdoc with hmem | hmem
    · exact f4 doc hmem
    · have hdd : doc = doc0 := by simpa using hmem
      rw [hdd]
      have := joinDocs_length _ _ _ hj
      omega

/-! ## Separator selection and the recursive splitter -/

theorem pickSepLoop_mem (dflt : PyStr) (text : PyStr) (l : List PyStr)
    (hmem : [] ∈ l) (hne : (pickSepLoop dflt text l).2 ≠ []) :
    [] ∈ (pickSepLoop dflt text l).2 ∧
      (pickSepLoop dflt text l).2.length < l.length := by
  induction l with
  | nil => cases hmem
  | cons s rest ih =>
    by_cases hs : s = []
    · simp only [pickSepLoop, if_pos hs] at hne
      exact absurd rfl hne
    · have hmem' : [] ∈ rest := by
        rcases List.mem_cons.mp hmem with h | h
        · exact absurd h.symm hs
        · exact h
      simp only [pickSepLoop, if_neg hs] at hne ⊢
      by_cases hc : strContains text s = true
      · rw [if_pos hc] at hne ⊢
        exact ⟨hmem', Nat.lt_succ_self _⟩
      · rw [if_neg hc] at hne ⊢
        obtain ⟨a, b⟩ := ih hmem' hne
        exact ⟨a, Nat.lt_succ_of_lt b⟩

theorem pickSepLoop_empty (dflt : PyStr) (text : PyStr) (l : List PyStr)
    (hmem : [] ∈ l) (h2 : (pickSepLoop dflt text l).2 = []) :
    (pickSepLoop dflt text l).1 = [] := by
  induction l with
  | nil => cases hmem
  | cons s rest ih =>
    by_cases hs : s = []
    · simp only [pickSepLoop, if_pos hs]
    · have hmem' : [] ∈ rest := by
        rcases List.mem_cons.mp hmem with h | h
        · exact absurd h.symm hs
        · exact h
      simp only [pickSepLoop, if_neg hs] at h2 ⊢
      by_cases hc : strContains text s = true
      · rw [if_pos hc] at h2 ⊢
        exfalso
        dsimp only at h2
        rw [h2] at hmem'
        cases hmem'
      · rw [if_neg hc] at h2 ⊢
        exact ih hmem' h2

theorem splitTextWithRegex_ne (text sep : PyStr) :
    ∀ s ∈ splitTextWithRegex text sep, s ≠ [] := by
  intro s hs
  unfold splitTextWithRegex at hs
  have := (List.mem_filter.mp hs).2
  simpa using this

theorem splitTextWithRegex_empty_sep (text : PyStr) :
    ∀ s ∈ splitTextWithRegex text [], s.length ≤ 1 := by
  intro s hs
  unfold splitTextWithRegex at hs
  rw [if_neg (by simp)] at hs
  have := (List.mem_filter.mp hs).1
  rw [List.mem_map] at this
  obtain ⟨c, _, rfl⟩ := this
  simp

theorem splitStep_fold (separator : PyStr) (newSeps : List PyStr)
    (recurse : PyStr → List PyStr) (splits : List PyStr)
    (hne : ∀ s ∈ splits, s ≠ [])
    (hbig : ∀ s ∈ splits, CHUNK_SIZE ≤ s.length →
      newSeps ≠ [] ∧ (∀ c ∈ recurse s, c.length ≤ CHUNK_SIZE)) :
    ∀ acc : List PyStr × List PyStr,
      (∀ c ∈ acc.1, c.length ≤ CHUNK_SIZE) →
      (∀ s ∈ acc.2, s ≠ [] ∧ s.length < CHUNK_SIZE) →
      ((∀ c ∈ (splits.foldl (splitStep separator newSeps recurse) acc).1,
          c.length ≤ CHUNK_SIZE) ∧
        (∀ s ∈ (splits.foldl (splitStep separator newSeps recurse) acc).2,
          s ≠ [] ∧ s.length < CHUNK_SIZE)) := by
  induction splits with
  | nil =>
    intro acc h1 h2
    exact ⟨h1, h2⟩
  | cons s ss ih =>
    intro acc h1 h2
    refine ih (fun x hx => hne x (List.mem_cons_of_mem _ hx))
      (fun x hx => hbig x (List.mem_cons_of_mem _ hx)) _ ?_ ?_
    · by_cases hlen : s.length < CHUNK_SIZE
      · simp only [splitStep, if_pos hlen]
        exact h1
      · simp only [splitStep, if_neg hlen]
        have hb := hbig s (List.mem_cons_self _ _) (by omega)
        rw [if_neg hb.1]
        dsimp only
        intro c hc
        by_cases hacc : acc.2.length > 0
        · rw [if_pos hacc] at hc
          dsimp only at hc
          rcases List.mem_append.mp hc with hm | hm
          · rcases List.mem_append.mp hm with hm' | hm'
            · exact h1 c hm'
            · exact mergeSplits_le acc.2 separator h2 c hm'
          · exact hb.2 c hm
        · rw [if_neg hacc] at hc
          rcases List.mem_append.mp hc with hm | hm
          · exact h1 c hm
          · exact hb.2 c hm
    · by_cases hlen : s.length < CHUNK_SIZE
      · simp only [splitStep, if_pos hlen]
        intro x hx
        rcases List.mem_append.mp hx with hm | hm
        · exact h2 x hm
        · have hxs : x = s := by simpa using hm
          rw [hxs]
          exact ⟨hne s (List.mem_cons_self _ _), hlen⟩
      · simp only [splitStep, if_neg hlen]
        have hb := hbig s (List.mem_cons_self _ _) (by omega)
        rw [if_neg hb.1]
        dsimp only
        intro x hx
        by_cases hacc : acc.2.length > 0
        · rw [if_pos hacc] at hx
          dsimp only at hx
          cases hx
        · rw [if_neg hacc] at hx
          exact h2 x hx

theorem splitTextGo_le : ∀ (fuel : Nat) (seps : List PyStr) (text : PyStr),
    [] ∈ seps → seps.length ≤ fuel →
    ∀ c ∈ splitTextGo fuel seps text, c.length ≤ CHUNK_SIZE := by
  intro fuel
  induction fuel with
  | zero =>
    intro seps text hmem hlen
    have hnil : seps = [] := List.length_eq_zero.mp (Nat.le_zero.mp hlen)
    rw [hnil] at hmem
    cases hmem
  | succ fuel ih =>
    intro seps text hmem hlen c hc
    simp only [splitTextGo] at hc
    by_cases hns : (pickSeparator seps text).2 = []
    · have hsep : (pickSeparator seps text).1 = [] :=
        pickSepLoop_empty (seps.getLastD []) text seps hmem hns
      have hsmall : ∀ s ∈ splitTextWithRegex text (pickSeparator seps text).1,
          s.length ≤ 1 := by
        rw [hsep]
        exact splitTextWithRegex_empty_sep text
      obtain ⟨g1, g2⟩ := splitStep_fold (pickSeparator seps text).1
        (pickSeparator seps text).2 (splitTextGo fuel (pickSeparator seps text).2)
        (splitTextWithRegex text (pickSeparator seps text).1)
        (splitTextWithRegex_ne _ _)
        (fun s hs hsz => absurd (hsmall s hs) (by
          simp only [CHUNK_SIZE] at hsz
          omega))
        ([], []) (by simp) (by simp)
      by_cases hres : ((splitTextWithRegex text (pickSeparator seps text).1).foldl
          (splitStep (pickSeparator seps text).1 (pickSeparator seps text).2
            (splitTextGo fuel (pickSeparator seps text).2)) ([], [])).2.length > 0
      · rw [if_pos hres] at hc
        rcases List.mem_append.mp hc with hm | hm
        · exact g1 c hm
        · exact mergeSplits_le _ _ g2 c hm
      · rw [if_neg hres] at hc
        exact g1 c hc
    · obtain ⟨hmem', hlt⟩ := pickSepLoop_mem (seps.getLastD []) text seps hmem hns
      have hrec : ∀ s : PyStr, ∀ c' ∈ splitTextGo fuel (pickSeparator seps text).2 s,
          c'.length ≤ CHUNK_SIZE := by
        intro s
        exact ih (pickSeparator seps text).2 s hmem' (by
          have : (pickSeparator seps text).2.length < seps.length := hlt
          omega)
      obtain ⟨g1, g2⟩ := splitStep_fold (pickSeparator seps text).1
        (pickSeparator seps text).2 (splitTextGo fuel (pickSeparator seps text).2)
        (splitTextWithRegex text (pickSeparator seps text).1)
        (splitTextWithRegex_ne _ _)
        (fun s _ _ => ⟨hns, hrec s⟩)
        ([], []) (by simp) (by simp)
      by_cases hres : ((splitTextWithRegex text (pickSeparator seps text).1).foldl
          (splitStep (pickSeparator seps text).1 (pickSeparator seps text).2
            (splitTextGo fuel (pickSeparator seps text).2)) ([], [])).2.length > 0
      · rw [if_pos hres] at hc
        rcases List.mem_append.mp hc with hm | hm
        · exact g1 c hm
        · exact mergeSplits_le _ _ g2 c hm
      · rw [if_neg hres] at hc
        exact g1 c hc

/-! ## C7 -/

/-- C7: `chunk_text` assigns zero-based contiguous chunk indices, every
chunk's content is at most `CHUNK_SIZE = 1000` characters long (oversize
atomic runs are hard-split by characters before merging), and the empty
text yields no chunks. -/
theorem c7_chunking (text : PyStr) :
    ((chunkText text).map (fun c => c.chunkIndex) =
      List.range (chunkText text).length) ∧
    (∀ c ∈ chunkText text, c.content.length ≤ CHUNK_SIZE) ∧
    chunkText [] = [] := by
  refine ⟨?_, ?_, rfl⟩
  · unfold chunkText
    rw [List.map_map, List.length_map]
    rw [show ((fun c : TChunk => c.chunkIndex) ∘
        (fun p : Nat × PyStr => (⟨p.2, p.1⟩ : TChunk))) = Prod.fst from rfl]
    rw [List.enum_map_fst, List.enum_length]
  · intro c hc
    unfold chunkText at hc
    rw [List.mem_map] at hc
    obtain ⟨p, hp, rfl⟩ := hc
    have hmem : p.2 ∈ splitText text := List.snd_mem_of_mem_enum hp
    exact splitTextGo_le splitterSeparators.length splitterSeparators text
      (by decide) (Nat.le_refl _) p.2 hmem

/-- Witness for C7 at a concrete text. -/
theorem c7_witness :
    (⟨"ab".toList, 0⟩ : TChunk).content.length ≤ CHUNK_SIZE ∧
    chunkText [] = [] := by
  exact ⟨(c7_chunking ("ab".toList)).2.1 ⟨"ab".toList, 0⟩ (by decide),
    (c7_chunking []).2.2⟩
